import Mathlib

/-!
Verification of the backup execution core of pgbackrest (sean0101n/pgbackrest).

The source slice contains the test modules (test/src/module/command/backupTest.c,
test/src/module/performance/typeTest.c) together with protocol/TLS support code;
the implementation files of the backup core (command/backup/file.c,
command/backup/backup.c, info/manifest.c) are not part of the slice.  The
definitions below therefore model those operations from the specification
(spec.md sections 4.B, 4.E, 4.H, 4.I, 4.J, 6 and 7), and every model is checked
against the concrete expectations of the tests in the slice, which exercise the
real functions.  File contents are byte lists (`List Nat`); the SHA-1 filter,
the compression/encryption write pipeline and the decompression/decryption
read-back are abstracted as function parameters (`hash`, `encode`, `decode`)
exactly where the C code composes opaque filters.
-/

namespace PgBackRest

/-- Result kind of one file-copy job (`BackupCopyResult` in the source).
The constructor order follows the wire encoding pinned by the protocol tests
in backupTest.c: the expected response lines show 3 for a skip (line 528),
1 for a plain copy (line 614), 4 for a no-op (line 656), 0 for a checksum
reuse (line 798) and 2 for a recopy (line 917). -/
inductive BackupCopyResult where
  | checksum
  | copy
  | reCopy
  | skip
  | noOp
deriving DecidableEq, Repr

/-- Error kinds of the backup core that the modelled operations can raise
(spec.md section 7). -/
inductive BackupError where
  | fileMissing
  | formatError
  | checksumError
deriving DecidableEq, Repr

/-- One parsed page of a relation file, as seen by the page validator
(spec.md section 4.B): the `pd_upper` field, the page LSN and whether the
stored `pd_checksum` equals the recomputed page checksum. -/
structure Page where
  pdUpper : Nat
  pdLsn : Nat
  checksumMatch : Bool
deriving DecidableEq, Repr

/-- Modelled from the spec: a page is exempt from checksum validation when its
`pd_upper` is zero (new page) or its LSN exceeds the limit (written after
backup start, replayed from WAL).  (spec.md section 4.B; the page validator
implementation is not in the source slice.) -/
def pageExempt (lsnLimit : Nat) (p : Page) : Bool :=
  p.pdUpper == 0 || decide (lsnLimit < p.pdLsn)

/-- A page fails validation when it is not exempt and its checksum mismatches. -/
def pageBad (lsnLimit : Nat) (p : Page) : Bool :=
  !pageExempt lsnLimit p && !p.checksumMatch

/-- Indices of the pages failing validation, in ascending order. -/
def pageErrorList (lsnLimit : Nat) (pages : List Page) : List Nat :=
  (List.range pages.length).filter fun i => pageBad lsnLimit (pages.getD i ⟨0, 0, true⟩)

/-- Terminal result of the page-checksum filter (spec.md section 4.B): `valid`
iff no page errors and the file size is a multiple of the page size. -/
structure PageChecksumResult where
  valid : Bool
  align : Bool
  errorList : List Nat
deriving DecidableEq, Repr

/-- Modelled from the spec: the page-checksum filter verdict over the parsed
pages of a file; `alignOk` records divisibility of the file size by the page
size. -/
def pageChecksumVerify (lsnLimit : Nat) (alignOk : Bool) (pages : List Page) :
    PageChecksumResult :=
  let errors := pageErrorList lsnLimit pages
  { valid := errors.isEmpty && alignOk, align := alignOk, errorList := errors }

/-- Result of one `backupFile` invocation (`BackupFileResult` in the source),
extended with the repo-side effect on the target path: `repoFileAfter` is the
content stored at the job's repo path after the call (`none` = absent). -/
structure BackupFileResult where
  copyResult : BackupCopyResult
  copySize : Nat
  repoSize : Nat
  copyChecksum : Option (List Nat)
  pageChecksumResult : Option PageChecksumResult
  repoFileAfter : Option (List Nat)
deriving DecidableEq, Repr

/-- Input parameters of `backupFile` (spec.md section 4.H), with the two
storage reads the call can make supplied as values: `pgContent` is the live
file's bytes (`none` when the file is missing) and `repoContent` the bytes
currently stored at the repo target path. -/
structure BackupFileArgs where
  pgContent : Option (List Nat)
  repoContent : Option (List Nat)
  ignoreMissing : Bool
  pgFileSize : Nat
  pgFileCopyExactSize : Bool
  pgFileChecksum : Option (List Nat)
  pgFileChecksumPage : Bool
  pgPages : List Page
  pgAlignOk : Bool
  pgFileChecksumPageLsnLimit : Nat
  repoFileHasReference : Bool
  delta : Bool
deriving DecidableEq, Repr

/-- The bytes read from the live file: limited to the first `pgFileSize` bytes
when `pgFileCopyExactSize` is set (spec.md section 4.H: a file that grew during
the backup is truncated to the size recorded in the manifest). -/
def liveReadOf (a : BackupFileArgs) (content : List Nat) : List Nat :=
  if a.pgFileCopyExactSize then content.take a.pgFileSize else content

/-- Result of streaming the live file through the filter pipeline into the
repo (the Copy/ReCopy executions of spec.md section 4.H): `copySize` is the
byte count read from pg, `repoSize` the byte count written after
compression/encryption, and the page-checksum filter reports when enabled. -/
def backupFileCopied (hash encode : List Nat → List Nat) (a : BackupFileArgs)
    (content : List Nat) (res : BackupCopyResult) : BackupFileResult :=
  let liveRead := liveReadOf a content
  let stored := encode liveRead
  { copyResult := res
    copySize := liveRead.length
    repoSize := stored.length
    copyChecksum := some (hash liveRead)
    pageChecksumResult :=
      if a.pgFileChecksumPage then
        some (pageChecksumVerify a.pgFileChecksumPageLsnLimit a.pgAlignOk a.pgPages)
      else none
    repoFileAfter := some stored }

/-- The branch of `backupFile` taken once the live file has matched the prior
checksum (spec.md section 4.H step 2): a reference to a prior backup is a
no-op; otherwise the repo copy is read back through decompression/decryption
(`decode`, `none` modelling a read failure) and kept when its checksum matches,
else recopied. -/
def backupFileChecked (hash encode : List Nat → List Nat)
    (decode : List Nat → Option (List Nat)) (a : BackupFileArgs)
    (content : List Nat) : BackupFileResult :=
  let liveRead := liveReadOf a content
  if a.repoFileHasReference then
    { copyResult := .noOp
      copySize := liveRead.length
      repoSize := 0
      copyChecksum := some (hash liveRead)
      pageChecksumResult := none
      repoFileAfter := a.repoContent }
  else
    match a.repoContent.bind decode with
    | none => backupFileCopied hash encode a content .reCopy
    | some repoRead =>
      if some (hash repoRead) = a.pgFileChecksum then
        { copyResult := .checksum
          copySize := repoRead.length
          repoSize := (a.repoContent.getD []).length
          copyChecksum := some (hash repoRead)
          pageChecksumResult := none
          repoFileAfter := a.repoContent }
      else backupFileCopied hash encode a content .reCopy

/-- Modelled from the spec: `backupFile` (command/backup/file.c is not in the
source slice; spec.md section 4.H gives the decision tree, which this
definition follows and which reproduces every expectation of the backupFile()
tests at backupTest.c lines 495-823).  Step 1: missing source is a skip (with
the repo copy deleted) under `ignoreMissing`, else `FileMissingError`.
Step 2: with delta or a prior checksum supplied, a live file whose first
`pgFileSize` bytes hash to the prior checksum and whose read size equals
`pgFileSize` goes to the checked branch.  Step 3: otherwise the file is
copied. -/
def backupFile (hash encode : List Nat → List Nat)
    (decode : List Nat → Option (List Nat)) (a : BackupFileArgs) :
    Except BackupError BackupFileResult :=
  match a.pgContent with
  | none =>
    if a.ignoreMissing then
      .ok { copyResult := .skip, copySize := 0, repoSize := 0, copyChecksum := none,
            pageChecksumResult := none, repoFileAfter := none }
    else .error .fileMissing
  | some content =>
    if (a.delta || a.pgFileChecksum.isSome) &&
        (a.pgFileChecksum == some (hash (liveReadOf a content))) &&
        ((liveReadOf a content).length == a.pgFileSize) then
      .ok (backupFileChecked hash encode decode a content)
    else
      .ok (backupFileCopied hash encode a content .copy)

/-- Claim C5: with the source file missing, `ignoreMissing = true` yields a
Skip result with `copySize = repoSize = 0` and the existing repo copy deleted;
`ignoreMissing = false` fails with `FileMissingError` and produces no result. -/
theorem C5_backupFile_missing (hash encode : List Nat → List Nat)
    (decode : List Nat → Option (List Nat)) (a : BackupFileArgs)
    (hmiss : a.pgContent = none) :
    (a.ignoreMissing = true →
      backupFile hash encode decode a =
        .ok { copyResult := .skip, copySize := 0, repoSize := 0, copyChecksum := none,
              pageChecksumResult := none, repoFileAfter := none }) ∧
    (a.ignoreMissing = false →
      backupFile hash encode decode a = .error .fileMissing) := by
  unfold backupFile
  rw [hmiss]
  constructor
  · intro h
    simp [h]
  · intro h
    simp [h]

/-- Witness for C5 at a concrete argument record. -/
theorem C5_backupFile_missing_witness :
    backupFile id id some
      { pgContent := none, repoContent := some [1, 2], ignoreMissing := true,
        pgFileSize := 0, pgFileCopyExactSize := true, pgFileChecksum := none,
        pgFileChecksumPage := false, pgPages := [], pgAlignOk := true,
        pgFileChecksumPageLsnLimit := 0, repoFileHasReference := false, delta := false } =
      .ok { copyResult := .skip, copySize := 0, repoSize := 0, copyChecksum := none,
            pageChecksumResult := none, repoFileAfter := none } :=
  (C5_backupFile_missing id id some _ rfl).1 rfl

/-- Claim C6: whenever `pgFileCopyExactSize` is true (and the SHA-1 filter is
collision-free, modelled as injectivity of `hash`), the reported `copySize`
never exceeds `pgFileSize`. -/
theorem C6_backupFile_copySize_le (hash encode : List Nat → List Nat)
    (decode : List Nat → Option (List Nat)) (a : BackupFileArgs)
    (r : BackupFileResult) (hexact : a.pgFileCopyExactSize = true)
    (hinj : Function.Injective hash)
    (hrun : backupFile hash encode decode a = .ok r) :
    r.copySize ≤ a.pgFileSize := by
  have hlive : ∀ content : List Nat, (liveReadOf a content).length ≤ a.pgFileSize := by
    intro content
    simp [liveReadOf, hexact]
  cases hpg : a.pgContent with
  | none =>
    simp only [backupFile, hpg] at hrun
    by_cases hi : a.ignoreMissing = true
    · simp [hi] at hrun
      simp [← hrun]
    · simp [Bool.not_eq_true] at hi
      simp [hi] at hrun
  | some content =>
    simp only [backupFile, hpg] at hrun
    by_cases hcond : ((a.delta || a.pgFileChecksum.isSome) &&
        (a.pgFileChecksum == some (hash (liveReadOf a content))) &&
        ((liveReadOf a content).length == a.pgFileSize)) = true
    · rw [if_pos hcond] at hrun
      have hr : r = backupFileChecked hash encode decode a content := by
        cases hrun
        rfl
      have hsum : a.pgFileChecksum = some (hash (liveReadOf a content)) ∧
          (liveReadOf a content).length = a.pgFileSize := by
        simp only [Bool.and_eq_true, beq_iff_eq] at hcond
        exact ⟨hcond.1.2, hcond.2⟩
      subst hr
      unfold backupFileChecked
      by_cases href : a.repoFileHasReference = true
      · simp only [href, if_true]
        exact le_of_eq hsum.2
      · simp only [Bool.not_eq_true] at href
        simp only [href, Bool.false_eq_true, if_false]
        cases hdec : a.repoContent.bind decode with
        | none =>
          simpa [backupFileCopied] using hlive content
        | some repoRead =>
          simp only
          by_cases hck : some (hash repoRead) = a.pgFileChecksum
          · rw [if_pos hck]
            have hh : hash repoRead = hash (liveReadOf a content) := by
              rw [hsum.1] at hck
              exact Option.some.inj hck
            have hEq : repoRead = liveReadOf a content := hinj hh
            simp only [hEq]
            exact le_of_eq hsum.2
          · rw [if_neg hck]
            simpa [backupFileCopied] using hlive content
    · rw [if_neg hcond] at hrun
      have hr : r = backupFileCopied hash encode a content .copy := by
        cases hrun
        rfl
      subst hr
      simpa [backupFileCopied] using hlive content

/-- Witness for C6: a 5-byte live file recorded at size 3 is truncated to a
copy size of 3. -/
theorem C6_backupFile_copySize_le_witness :
    ({ copyResult := .copy, copySize := 3, repoSize := 3,
       copyChecksum := some [9, 8, 7], pageChecksumResult := none,
       repoFileAfter := some [9, 8, 7] } : BackupFileResult).copySize ≤
      ({ pgContent := some [9, 8, 7, 6, 5], repoContent := none, ignoreMissing := false,
         pgFileSize := 3, pgFileCopyExactSize := true, pgFileChecksum := none,
         pgFileChecksumPage := false, pgPages := [], pgAlignOk := true,
         pgFileChecksumPageLsnLimit := 0, repoFileHasReference := false,
         delta := false } : BackupFileArgs).pgFileSize :=
  C6_backupFile_copySize_le id id some _ _ rfl (fun _ _ h => h) rfl

/-- Claim C1: when a prior checksum is supplied and the live file's hash over
its first `pgFileSize` bytes matches it with matching size, the result is NoOp
under `repoFileHasReference`; otherwise Checksum when the repo copy read back
through decompression/decryption has the matching checksum, and ReCopy when
the read-back fails or mismatches. -/
theorem C1_backupFile_prior_checksum (hash encode : List Nat → List Nat)
    (decode : List Nat → Option (List Nat)) (a : BackupFileArgs)
    (content c : List Nat)
    (hpg : a.pgContent = some content)
    (hck : a.pgFileChecksum = some c)
    (hmatch : hash (liveReadOf a content) = c)
    (hsize : (liveReadOf a content).length = a.pgFileSize) :
    (a.repoFileHasReference = true →
      backupFile hash encode decode a =
        .ok { copyResult := .noOp, copySize := a.pgFileSize, repoSize := 0,
              copyChecksum := some c, pageChecksumResult := none,
              repoFileAfter := a.repoContent }) ∧
    (a.repoFileHasReference = false →
      (∀ d, a.repoContent.bind decode = some d → hash d = c →
        backupFile hash encode decode a =
          .ok { copyResult := .checksum, copySize := d.length,
                repoSize := (a.repoContent.getD []).length,
                copyChecksum := some c, pageChecksumResult := none,
                repoFileAfter := a.repoContent }) ∧
      (a.repoContent.bind decode = none →
        backupFile hash encode decode a =
          .ok (backupFileCopied hash encode a content .reCopy)) ∧
      (∀ d, a.repoContent.bind decode = some d → hash d ≠ c →
        backupFile hash encode decode a =
          .ok (backupFileCopied hash encode a content .reCopy))) := by
  have hrun : backupFile hash encode decode a =
      .ok (backupFileChecked hash encode decode a content) := by
    simp [backupFile, hpg, hck, hmatch, hsize]
  refine ⟨?_, ?_⟩
  · intro href
    rw [hrun]
    simp [backupFileChecked, href, hmatch, hsize]
  · intro href
    refine ⟨?_, ?_, ?_⟩
    · intro d hd hhd
      rw [hrun]
      simp [backupFileChecked, href, hd, hhd, hck]
    · intro hd
      rw [hrun]
      simp [backupFileChecked, href, hd]
    · intro d hd hhd
      rw [hrun]
      simp [backupFileChecked, href, hd, hck, hhd]

/-- Witness for C1: a two-byte live file matching its prior checksum with a
reference to a prior backup is a NoOp. -/
theorem C1_backupFile_prior_checksum_witness :
    backupFile id id some
      { pgContent := some [1, 2], repoContent := some [1, 2], ignoreMissing := false,
        pgFileSize := 2, pgFileCopyExactSize := true, pgFileChecksum := some [1, 2],
        pgFileChecksumPage := false, pgPages := [], pgAlignOk := true,
        pgFileChecksumPageLsnLimit := 0, repoFileHasReference := true, delta := true } =
      .ok { copyResult := .noOp, copySize := 2, repoSize := 0,
            copyChecksum := some [1, 2], pageChecksumResult := none,
            repoFileAfter := some [1, 2] } :=
  (C1_backupFile_prior_checksum id id some
    { pgContent := some [1, 2], repoContent := some [1, 2], ignoreMissing := false,
      pgFileSize := 2, pgFileCopyExactSize := true, pgFileChecksum := some [1, 2],
      pgFileChecksumPage := false, pgPages := [], pgAlignOk := true,
      pgFileChecksumPageLsnLimit := 0, repoFileHasReference := true, delta := true }
    [1, 2] [1, 2] rfl rfl rfl rfl).1 rfl

/-- Claim C10: an existing zero-length source file with no prior checksum is a
Copy with `copySize = repoSize = 0`, a non-null checksum (the hash of zero
bytes) and a zero-length file written to the repository (no compression, so
the write pipeline is the identity). -/
theorem C10_backupFile_zero_length (hash : List Nat → List Nat)
    (decode : List Nat → Option (List Nat)) (a : BackupFileArgs)
    (hpg : a.pgContent = some [])
    (hck : a.pgFileChecksum = none)
    (hdelta : a.delta = false)
    (hpage : a.pgFileChecksumPage = false) :
    backupFile hash id decode a =
      .ok { copyResult := .copy, copySize := 0, repoSize := 0,
            copyChecksum := some (hash []), pageChecksumResult := none,
            repoFileAfter := some [] } := by
  simp [backupFile, hpg, hck, hdelta, backupFileCopied, liveReadOf, hpage]

/-- Witness for C10 at a concrete argument record (zerofile scenario of
backupTest.c lines 801-818). -/
theorem C10_backupFile_zero_length_witness :
    backupFile id id some
      { pgContent := some [], repoContent := none, ignoreMissing := false,
        pgFileSize := 0, pgFileCopyExactSize := true, pgFileChecksum := none,
        pgFileChecksumPage := false, pgPages := [], pgAlignOk := true,
        pgFileChecksumPageLsnLimit := 0, repoFileHasReference := false, delta := false } =
      .ok { copyResult := .copy, copySize := 0, repoSize := 0,
            copyChecksum := some [], pageChecksumResult := none,
            repoFileAfter := some [] } :=
  C10_backupFile_zero_length id some _ rfl rfl rfl rfl

/-- Largest element of a list of label timestamps (the sort-descending /
take-first idiom of `backupLabelCreate`). -/
def latestOf : List Nat → Option Nat
  | [] => none
  | t :: rest =>
    match latestOf rest with
    | none => some t
    | some m => some (max t m)

theorem latestOf_cons_isSome (a : Nat) (l : List Nat) : (latestOf (a :: l)).isSome := by
  simp only [latestOf]
  cases latestOf l <;> simp

theorem latestOf_eq_none (l : List Nat) (h : latestOf l = none) : l = [] := by
  cases l with
  | nil => rfl
  | cons a rest =>
    have hs := latestOf_cons_isSome a rest
    rw [h] at hs
    cases hs

theorem latestOf_ge (l : List Nat) (t : Nat) (ht : t ∈ l) (m : Nat)
    (hm : latestOf l = some m) : t ≤ m := by
  induction l generalizing m with
  | nil => cases ht
  | cons a rest ih =>
    simp only [latestOf] at hm
    cases h : latestOf rest with
    | none =>
      rw [h] at hm
      cases hm
      rcases List.mem_cons.mp ht with h1 | h1
      · exact le_of_eq h1
      · rw [latestOf_eq_none rest h] at h1
        cases h1
    | some k =>
      rw [h] at hm
      cases hm
      rcases List.mem_cons.mp ht with h1 | h1
      · exact h1 ▸ Nat.le_max_left a k
      · exact le_trans (ih h1 k h) (Nat.le_max_right a k)

theorem latestOf_mem (l : List Nat) (m : Nat) (hm : latestOf l = some m) : m ∈ l := by
  induction l generalizing m with
  | nil => simp [latestOf] at hm
  | cons a rest ih =>
    simp only [latestOf] at hm
    cases h : latestOf rest with
    | none =>
      rw [h] at hm
      cases hm
      exact List.mem_cons_self a rest
    | some k =>
      rw [h] at hm
      cases hm
      rcases Nat.le_total a k with hle | hle
      · rw [Nat.max_eq_right hle]
        exact List.mem_cons_of_mem a (ih k h)
      · rw [Nat.max_eq_left hle]
        exact List.mem_cons_self a rest

/-- Modelled from the spec: `backupLabelCreate` (command/backup/backup.c is not
in the source slice; spec.md section 3 BackupLabel invariant, behavior pinned
by the backupLabelCreate() tests at backupTest.c lines 922-993).  Labels are
identified by their timestamps, since the `YYYYMMDD-HHMMSS` label format is
strictly monotone in the timestamp.  `existing` holds the timestamps of every
backup label and archived history label in the repository.  A request at an
already-taken (or older) second advances to the next second, and the call
fails with `FormatError` when even the advanced label would not be strictly
later than the latest existing label. -/
def backupLabelCreate (existing : List Nat) (timestamp : Nat) :
    Except BackupError Nat :=
  match latestOf existing with
  | none => .ok timestamp
  | some latest =>
    if timestamp ≤ latest then
      if timestamp + 1 ≤ latest then .error .formatError
      else .ok (timestamp + 1)
    else .ok timestamp

/-- Claim C3: a label returned by `backupLabelCreate` is strictly later than
every existing backup and history label; a request at a taken second advances
to the next second; and the call fails with `FormatError` exactly when even
the advanced second would not be strictly later. -/
theorem C3_backupLabelCreate_monotonic (existing : List Nat) (timestamp : Nat) :
    (∀ r, backupLabelCreate existing timestamp = .ok r → ∀ t ∈ existing, t < r) ∧
    (timestamp ∈ existing →
      ∀ r, backupLabelCreate existing timestamp = .ok r → r = timestamp + 1) ∧
    (backupLabelCreate existing timestamp = .error .formatError ↔
      ∃ t ∈ existing, timestamp + 1 ≤ t) := by
  cases hl : latestOf existing with
  | none =>
    have hemp := latestOf_eq_none existing hl
    subst hemp
    simp [backupLabelCreate, latestOf]
  | some latest =>
    simp only [backupLabelCreate, hl]
    by_cases h1 : timestamp ≤ latest
    · by_cases h2 : timestamp + 1 ≤ latest
      · rw [if_pos h1, if_pos h2]
        refine ⟨?_, ?_, ?_⟩
        · intro r hr
          cases hr
        · intro _ r hr
          cases hr
        · constructor
          · intro _
            exact ⟨latest, latestOf_mem existing latest hl, h2⟩
          · intro _
            rfl
      · rw [if_pos h1, if_neg h2]
        refine ⟨?_, ?_, ?_⟩
        · intro r hr t ht
          cases hr
          have hle := latestOf_ge existing t ht latest hl
          omega
        · intro _ r hr
          cases hr
          rfl
        · constructor
          · intro h
            cases h
          · rintro ⟨t, ht, hle⟩
            have hge := latestOf_ge existing t ht latest hl
            omega
    · rw [if_neg h1]
      refine ⟨?_, ?_, ?_⟩
      · intro r hr t ht
        cases hr
        have hle := latestOf_ge existing t ht latest hl
        omega
      · intro hmem r hr
        have hle := latestOf_ge existing timestamp hmem latest hl
        omega
      · constructor
        · intro h
          cases h
        · rintro ⟨t, ht, hle⟩
          have hge := latestOf_ge existing t ht latest hl
          omega

/-- Witness for C3: the scenario of backupTest.c lines 969-977, with an
existing backup at the requested second the label advances one second. -/
theorem C3_backupLabelCreate_monotonic_witness :
    (1575401652 : Nat) ∈ [1575401652, 1575401650, 1575401648] ∧
    backupLabelCreate [1575401652, 1575401650, 1575401648] 1575401652 =
      .ok 1575401653 ∧
    (1575401652 : Nat) < 1575401653 := by
  refine ⟨by decide, by rfl, ?_⟩
  exact (C3_backupLabelCreate_monotonic [1575401652, 1575401650, 1575401648]
    1575401652).1 1575401653 (by rfl) 1575401652 (by decide)

/-- Compression algorithms (`CompressType` in the source). -/
inductive CompressKind where
  | noCompress
  | gz
  | bz2
  | lz4
  | zst
deriving DecidableEq, Repr

/-- Outcome of the resume compatibility check: whether the partial backup is
used, whether its directory was removed, and whether a warning was emitted. -/
structure ResumeDecision where
  resume : Bool
  removed : Bool
  warning : Bool
deriving DecidableEq, Repr

/-- Modelled from the spec: the compatibility check of `backupResumeFind`
(command/backup/backup.c is not in the source slice; spec.md section 4.J,
behavior pinned by the backupResumeFind() tests at backupTest.c lines
1238-1366).  The checks run in order: resume disabled, pgBackRest version
changed, prior-label field disagreement, compression type disagreement.  Every
rejection removes the partial directory and warns; the backup then continues
with a fresh directory (the check never raises an error). -/
def backupResumeFind (resumeEnabled : Bool) (newVersion resumableVersion : String)
    (newPrior resumablePrior : Option String)
    (newCompress resumableCompress : CompressKind) : ResumeDecision :=
  if !resumeEnabled then ⟨false, true, true⟩
  else if newVersion ≠ resumableVersion then ⟨false, true, true⟩
  else if newPrior ≠ resumablePrior then ⟨false, true, true⟩
  else if newCompress ≠ resumableCompress then ⟨false, true, true⟩
  else ⟨true, false, false⟩

/-- Claim C8: whenever resume is disabled, the software version tag changed,
the prior-label field disagrees or the compression type disagrees, the partial
backup is rejected and its directory removed, with a warning and no error. -/
theorem C8_backupResumeFind_reject (resumeEnabled : Bool)
    (newVersion resumableVersion : String) (newPrior resumablePrior : Option String)
    (newCompress resumableCompress : CompressKind)
    (h : resumeEnabled = false ∨ newVersion ≠ resumableVersion ∨
      newPrior ≠ resumablePrior ∨ newCompress ≠ resumableCompress) :
    backupResumeFind resumeEnabled newVersion resumableVersion newPrior
      resumablePrior newCompress resumableCompress =
      ⟨false, true, true⟩ := by
  unfold backupResumeFind
  split_ifs with h1 h2 h3 h4
  any_goals rfl
  rcases h with h | h | h | h
  · rw [h] at h1
    simp at h1
  · exact absurd h h2
  · exact absurd h h3
  · exact absurd h h4

/-- Witness for C8: resume disabled (backupTest.c lines 1246-1263). -/
theorem C8_backupResumeFind_reject_witness :
    backupResumeFind false "2.26" "2.26" none none
      CompressKind.noCompress CompressKind.noCompress =
      ⟨false, true, true⟩ :=
  C8_backupResumeFind_reject false "2.26" "2.26" none none
    CompressKind.noCompress CompressKind.noCompress (Or.inl rfl)

/-- One entry of a manifest `checksum-page-error` list: a scalar page index or
a two-element inclusive range (spec.md section 3). -/
inductive PageErrorItem where
  | single (idx : Nat)
  | interval (lo hi : Nat)
deriving DecidableEq, Repr

/-- Build one error entry for the inclusive run `lo..hi`: a scalar when the
run has one page, a range otherwise. -/
def pageErrorItem (lo hi : Nat) : PageErrorItem :=
  if lo = hi then .single lo else .interval lo hi

/-- The page indices an error entry stands for. -/
def itemExpand : PageErrorItem → List Nat
  | .single idx => [idx]
  | .interval lo hi => List.range' lo (hi + 1 - lo)

/-- The page indices a whole error list stands for, in order. -/
def expand (items : List PageErrorItem) : List Nat :=
  (items.map itemExpand).flatten

theorem expand_cons (x : PageErrorItem) (l : List PageErrorItem) :
    expand (x :: l) = itemExpand x ++ expand l := by
  simp [expand]

/-- Modelled from the spec: coalescing of consecutive bad-page indices into
inclusive ranges (spec.md section 4.B), with the open run `lo..hi` pending. -/
def coalesceGo (lo hi : Nat) : List Nat → List PageErrorItem
  | [] => [pageErrorItem lo hi]
  | i :: rest =>
    if i = hi + 1 then coalesceGo lo i rest
    else pageErrorItem lo hi :: coalesceGo i i rest

/-- Modelled from the spec: the sorted bad-page index list rendered as scalars
and inclusive ranges with consecutive indices coalesced. -/
def coalesce : List Nat → List PageErrorItem
  | [] => []
  | i :: rest => coalesceGo i i rest

theorem itemExpand_pageErrorItem (lo hi : Nat) (h : lo ≤ hi) :
    itemExpand (pageErrorItem lo hi) = List.range' lo (hi + 1 - lo) := by
  unfold pageErrorItem
  by_cases he : lo = hi
  · subst he
    simp [itemExpand, Nat.add_sub_cancel_left, List.range'_one]
  · simp [he, itemExpand]

theorem expand_coalesceGo (rest : List Nat) :
    ∀ lo hi, lo ≤ hi → List.Chain' (· < ·) (hi :: rest) →
      expand (coalesceGo lo hi rest) = List.range' lo (hi + 1 - lo) ++ rest := by
  induction rest with
  | nil =>
    intro lo hi h _
    simp [coalesceGo, expand, itemExpand_pageErrorItem lo hi h]
  | cons i rest ih =>
    intro lo hi h hchain
    have hhi : hi < i := (List.chain'_cons.mp hchain).1
    have hchain2 : List.Chain' (· < ·) (i :: rest) := (List.chain'_cons.mp hchain).2
    unfold coalesceGo
    by_cases hcons : i = hi + 1
    · rw [if_pos hcons, ih lo i (by omega) hchain2]
      subst hcons
      have hsplit : List.range' lo (hi + 1 + 1 - lo) =
          List.range' lo (hi + 1 - lo) ++ [hi + 1] := by
        have h1 : hi + 1 + 1 - lo = (hi + 1 - lo) + 1 := by omega
        rw [h1, List.range'_concat]
        congr 2
        omega
      rw [hsplit, List.append_assoc]
      rfl
    · rw [if_neg hcons, expand_cons, itemExpand_pageErrorItem lo hi h,
        ih i i le_rfl hchain2]
      simp [Nat.add_sub_cancel_left, List.range'_one]

/-- Expanding the coalesced list recovers exactly the original strictly
ascending index list. -/
theorem expand_coalesce (l : List Nat) (h : List.Chain' (· < ·) l) :
    expand (coalesce l) = l := by
  cases l with
  | nil => rfl
  | cons i rest =>
    show expand (coalesceGo i i rest) = i :: rest
    rw [expand_coalesceGo rest i i le_rfl h]
    simp [Nat.add_sub_cancel_left, List.range'_one]

/-- Structural wellformedness of an error entry: a range stands for at least
two pages (single pages are emitted as scalars). -/
def itemWF : PageErrorItem → Prop
  | .single _ => True
  | .interval lo hi => lo < hi

theorem coalesceGo_itemWF (rest : List Nat) :
    ∀ lo hi, lo ≤ hi → ∀ x ∈ coalesceGo lo hi rest, itemWF x := by
  induction rest with
  | nil =>
    intro lo hi h x hx
    simp only [coalesceGo, List.mem_singleton] at hx
    subst hx
    by_cases he : lo = hi
    · simp [pageErrorItem, he, itemWF]
    · simp only [pageErrorItem, he, if_false]
      show lo < hi
      omega
  | cons i rest ih =>
    intro lo hi h x hx
    unfold coalesceGo at hx
    by_cases hcons : i = hi + 1
    · rw [if_pos hcons] at hx
      exact ih lo i (by omega) x hx
    · rw [if_neg hcons] at hx
      rcases List.mem_cons.mp hx with h1 | h1
      · subst h1
        by_cases he : lo = hi
        · simp [pageErrorItem, he, itemWF]
        · simp only [pageErrorItem, he, if_false]
          show lo < hi
          omega
      · exact ih i i le_rfl x h1

theorem coalesce_itemWF (l : List Nat) : ∀ x ∈ coalesce l, itemWF x := by
  cases l with
  | nil =>
    intro x hx
    simp [coalesce] at hx
  | cons i rest =>
    exact coalesceGo_itemWF rest i i le_rfl

/-- The bad-page index list produced by the validator is strictly ascending. -/
theorem pageErrorList_chain (lsnLimit : Nat) (pages : List Page) :
    List.Chain' (· < ·) (pageErrorList lsnLimit pages) :=
  List.Pairwise.chain'
    (List.Pairwise.filter _ (List.pairwise_lt_range pages.length))

/-- The page-related part of a manifest file entry. -/
structure ManifestPageInfo where
  checksumPage : Option Bool
  checksumPageError : Option (List PageErrorItem)
deriving DecidableEq, Repr

/-- Modelled from the spec: how a file-copy job result is folded into the
file's manifest entry for page checksums, together with whether a warning is
logged (spec.md sections 3, 4.B and 7; expectations pinned by the cmdBackup()
test at backupTest.c lines 2254-2263 and 2356-2363).  Bad page checksums are
never fatal: an invalid verdict records `checksum-page=false`, attaches the
coalesced error list when any page failed, and warns. -/
def backupJobResultPage : Option PageChecksumResult → ManifestPageInfo × Bool
  | none => ({ checksumPage := none, checksumPageError := none }, false)
  | some r =>
    if r.valid then ({ checksumPage := some true, checksumPageError := none }, false)
    else
      ({ checksumPage := some false,
         checksumPageError :=
           if r.errorList.isEmpty then none else some (coalesce r.errorList) },
       true)

/-- Claim C4: a source file with failing page checksums does not fail the
backup: the file is still copied, its manifest entry records
`checksumPage = false` with the error list given as the sorted scalars and
two-element inclusive ranges coalescing consecutive bad pages, and a warning
is logged. -/
theorem C4_page_checksum_failure (hash encode : List Nat → List Nat)
    (decode : List Nat → Option (List Nat)) (a : BackupFileArgs)
    (content : List Nat)
    (hpg : a.pgContent = some content)
    (hck : a.pgFileChecksum = none)
    (hdelta : a.delta = false)
    (hpage : a.pgFileChecksumPage = true)
    (herr : pageErrorList a.pgFileChecksumPageLsnLimit a.pgPages ≠ []) :
    backupFile hash encode decode a =
      .ok (backupFileCopied hash encode a content .copy) ∧
    (backupFileCopied hash encode a content .copy).copyResult = .copy ∧
    (backupFileCopied hash encode a content .copy).pageChecksumResult =
      some (pageChecksumVerify a.pgFileChecksumPageLsnLimit a.pgAlignOk a.pgPages) ∧
    (pageChecksumVerify a.pgFileChecksumPageLsnLimit a.pgAlignOk a.pgPages).valid =
      false ∧
    backupJobResultPage
        (some (pageChecksumVerify a.pgFileChecksumPageLsnLimit a.pgAlignOk a.pgPages)) =
      ({ checksumPage := some false,
         checksumPageError :=
           some (coalesce (pageErrorList a.pgFileChecksumPageLsnLimit a.pgPages)) },
       true) ∧
    expand (coalesce (pageErrorList a.pgFileChecksumPageLsnLimit a.pgPages)) =
      pageErrorList a.pgFileChecksumPageLsnLimit a.pgPages ∧
    ∀ x ∈ coalesce (pageErrorList a.pgFileChecksumPageLsnLimit a.pgPages), itemWF x := by
  have hvalid :
      (pageChecksumVerify a.pgFileChecksumPageLsnLimit a.pgAlignOk a.pgPages).valid =
        false := by
    simp only [pageChecksumVerify, Bool.and_eq_false_iff]
    left
    simpa [List.isEmpty_iff] using herr
  refine ⟨?_, rfl, ?_, hvalid, ?_, ?_, ?_⟩
  · simp [backupFile, hpg, hck, hdelta]
  · simp [backupFileCopied, hpage]
  · simp only [backupJobResultPage, hvalid, Bool.false_eq_true, if_false]
    have hne : (pageChecksumVerify a.pgFileChecksumPageLsnLimit a.pgAlignOk
        a.pgPages).errorList.isEmpty = false := by
      simpa [pageChecksumVerify, List.isEmpty_iff] using herr
    simp [hne, pageChecksumVerify, herr]
  · exact expand_coalesce _ (pageErrorList_chain _ _)
  · exact coalesce_itemWF _

/-- Witness for C4: the relation file of backupTest.c lines 2254-2263 with bad
checksums on pages 0, 2 and 3 (page 1 exempt through zero `pd_upper`) yields
the manifest error list `[0, [2, 3]]`. -/
theorem C4_page_checksum_failure_witness :
    pageErrorList 1000
        [⟨255, 0, false⟩, ⟨0, 0, false⟩, ⟨254, 0, false⟩, ⟨239, 0, false⟩] =
      [0, 2, 3] ∧
    backupJobResultPage
        (some (pageChecksumVerify 1000 true
          [⟨255, 0, false⟩, ⟨0, 0, false⟩, ⟨254, 0, false⟩, ⟨239, 0, false⟩])) =
      ({ checksumPage := some false,
         checksumPageError := some [.single 0, .interval 2 3] }, true) := by
  have h := C4_page_checksum_failure id id some
    { pgContent := some [1], repoContent := none, ignoreMissing := false,
      pgFileSize := 1, pgFileCopyExactSize := true, pgFileChecksum := none,
      pgFileChecksumPage := true,
      pgPages := [⟨255, 0, false⟩, ⟨0, 0, false⟩, ⟨254, 0, false⟩, ⟨239, 0, false⟩],
      pgAlignOk := true, pgFileChecksumPageLsnLimit := 1000,
      repoFileHasReference := false, delta := false }
    [1] rfl rfl rfl rfl (by decide)
  exact ⟨by decide, (h.2.2.2.2.1).trans (by decide)⟩

/-- Integer encoding of `BackupCopyResult` on the worker wire protocol.  The
encoding is pinned by the expected response lines of the backupProtocol()
tests in backupTest.c: a skip answers `[3,...]` (line 528), a plain copy
`[1,...]` (line 614), a no-op `[4,...]` (line 656), a checksum reuse
`[0,...]` (line 798) and a recopy `[2,...]` (line 917). -/
def backupCopyResultInt : BackupCopyResult → Nat
  | .checksum => 0
  | .copy => 1
  | .reCopy => 2
  | .skip => 3
  | .noOp => 4

def hexDigit (n : Nat) : Char :=
  if n < 10 then Char.ofNat (48 + n) else Char.ofNat (87 + n)

def byteHex (b : Nat) : List Char :=
  [hexDigit (b / 16 % 16), hexDigit (b % 16)]

/-- Hex rendering of a digest byte list (the form checksums take on the wire
and in the manifest). -/
def bytesHex (l : List Nat) : String :=
  String.mk (l.map byteHex).flatten

def jsonBool : Bool → String
  | true => "true"
  | false => "false"

def jsonChecksum : Option (List Nat) → String
  | none => "null"
  | some c => "\"" ++ bytesHex c ++ "\""

def jsonPageItem : PageErrorItem → String
  | .single idx => toString idx
  | .interval lo hi => "[" ++ toString lo ++ "," ++ toString hi ++ "]"

def jsonCommaJoin : List String → String
  | [] => ""
  | [x] => x
  | x :: y :: rest => x ++ "," ++ jsonCommaJoin (y :: rest)

def jsonArray (fields : List String) : String :=
  "[" ++ jsonCommaJoin fields ++ "]"

/-- JSON rendering of the page-checksum filter verdict carried in the
response (keys in sorted order, error list coalesced, omitted when empty). -/
def jsonPageResult : Option PageChecksumResult → String
  | none => "null"
  | some r =>
    "\x7b\"align\":" ++ jsonBool r.align ++
      (if r.errorList.isEmpty then "" else
        ",\"error\":" ++ jsonArray ((coalesce r.errorList).map jsonPageItem)) ++
      ",\"valid\":" ++ jsonBool r.valid ++ "\x7d"

/-- Modelled from the spec: the success response line the worker writes for a
backup-file job (spec.md section 6; the protocol server code is not in the
source slice, the exact bytes are pinned by the backupProtocol() tests in
backupTest.c). -/
def backupFileProtocolResponse (r : BackupFileResult) : String :=
  "\x7b\"out\":" ++ jsonArray
    [toString (backupCopyResultInt r.copyResult), toString r.copySize,
     toString r.repoSize, jsonChecksum r.copyChecksum,
     jsonPageResult r.pageChecksumResult] ++ "\x7d\n"

/-- Counterexample to claim C9 as stated: the response the tests expect for a
plain copy (backupTest.c line 614, result fields 12/12 with the checksum of
the twelve-byte file) carries 1 in the result position, so the encoding maps
Copy to 1 and not to 0 as the claim says. -/
theorem C9_counterexample_copy_encoding :
    backupFileProtocolResponse
        { copyResult := .copy, copySize := 12, repoSize := 12,
          copyChecksum := some
            [0xc3, 0xae, 0x46, 0x87, 0xea, 0x8c, 0xcd, 0x47, 0xbf, 0xdb,
             0x19, 0x0d, 0xbe, 0x7f, 0xd3, 0xb3, 0x75, 0x45, 0xfd, 0xb9],
          pageChecksumResult := some { valid := false, align := false, errorList := [] },
          repoFileAfter := none } =
      "\x7b\"out\":[1,12,12,\"c3ae4687ea8ccd47bfdb190dbe7fd3b37545fdb9\",\x7b\"align\":false,\"valid\":false\x7d]\x7d\n" ∧
    backupCopyResultInt .copy ≠ 0 := by
  exact ⟨by decide, by decide⟩

/-- Claim C9 amended: the worker's success response is the single JSON line
`\x7b"out":[copyResultInt, copySize, repoSize, copyChecksumOrNull,
pageChecksumResultOrNull]\x7d` followed by a newline, where `copyResultInt`
encodes Checksum=0, Copy=1, ReCopy=2, Skip=3, NoOp=4. -/
theorem C9_protocol_response_line (r : BackupFileResult) :
    backupFileProtocolResponse r =
      "\x7b\"out\":[" ++ toString (backupCopyResultInt r.copyResult) ++ "," ++
        toString r.copySize ++ "," ++ toString r.repoSize ++ "," ++
        jsonChecksum r.copyChecksum ++ "," ++
        jsonPageResult r.pageChecksumResult ++ "]\x7d\n" ∧
    backupCopyResultInt .checksum = 0 ∧ backupCopyResultInt .copy = 1 ∧
    backupCopyResultInt .reCopy = 2 ∧ backupCopyResultInt .skip = 3 ∧
    backupCopyResultInt .noOp = 4 := by
  refine ⟨?_, rfl, rfl, rfl, rfl, rfl⟩
  simp only [backupFileProtocolResponse, jsonArray, jsonCommaJoin]
  simp only [String.append_assoc]
  rw [← String.append_assoc]
  rfl

/-- Witness for C9 at the skip response of backupTest.c line 528. -/
theorem C9_protocol_response_line_witness :
    backupFileProtocolResponse
        { copyResult := .skip, copySize := 0, repoSize := 0, copyChecksum := none,
          pageChecksumResult := none, repoFileAfter := none } =
      "\x7b\"out\":[3,0,0,null,null]\x7d\n" := by
  have h := (C9_protocol_response_line
    { copyResult := .skip, copySize := 0, repoSize := 0, copyChecksum := none,
      pageChecksumResult := none, repoFileAfter := none }).1
  exact h.trans (by decide)

/-- Modelled from the spec: the file-copy job the orchestrator enqueues for a
non-primary file during a backup from a standby (spec.md section 4.I).  The
manifest is built from the primary, so `pgFileSize` is the size recorded on
the primary, and the worker reads the file from the standby storage with
`pgFileCopyExactSize` set.  The cmdBackup() backup-standby test at
backupTest.c lines 2086-2177 pins this: the file that is `5678` (4 bytes) on
the standby and `DA` (2 bytes) on the primary ends up in the manifest with
size 2 and checksum `54ceb91256e8190e474aa752a6e0650a2df5ba37`, the SHA-1 of
`56` (the standby's first two bytes), and the file that is `ABC` (3 bytes) on
the standby and `TEST` (4 bytes) on the primary ends up with size 3 and the
SHA-1 of `ABC` — both were read from the standby, whatever the size
relation. -/
def backupStandbyFileArgs (primarySize : Nat) (standbyContent : Option (List Nat)) :
    BackupFileArgs :=
  { pgContent := standbyContent, repoContent := none, ignoreMissing := true,
    pgFileSize := primarySize, pgFileCopyExactSize := true, pgFileChecksum := none,
    pgFileChecksumPage := false, pgPages := [], pgAlignOk := true,
    pgFileChecksumPageLsnLimit := 0, repoFileHasReference := false, delta := false }

/-- Counterexample to claim C7 as stated: with the file `5678` (bytes
53,54,55,56) on the standby and `DA` (bytes 68,65) on the primary, the copy
does read exactly 2 bytes, but they are the standby's first two bytes
(53,54 = `56`), so the copy checksum is the checksum of `56` and not of the
primary's content `DA` — there is no fallback to reading from the primary. -/
theorem C7_counterexample_standby_bytes :
    backupFile id id some (backupStandbyFileArgs 2 (some [53, 54, 55, 56])) =
      .ok { copyResult := .copy, copySize := 2, repoSize := 2,
            copyChecksum := some [53, 54], pageChecksumResult := none,
            repoFileAfter := some [53, 54] } ∧
    some (id [53, 54]) ≠ some (id ([68, 65] : List Nat)) := by
  exact ⟨rfl, by decide⟩

/-- Claim C7 amended: in a backup from a standby where the file is 4 bytes on
the standby and 2 bytes on the primary, the copy reads exactly 2 bytes — the
first 2 bytes of the standby's copy, truncated to the primary's recorded
size — the result's `copySize` is 2, and the copy checksum is the checksum of
those standby bytes (files are read from the standby with no
fallback to the primary). -/
theorem C7_standby_grew_on_primary (hash : List Nat → List Nat)
    (standby : List Nat) (hlen : standby.length = 4) :
    backupFile hash id some (backupStandbyFileArgs 2 (some standby)) =
      .ok { copyResult := .copy, copySize := 2, repoSize := 2,
            copyChecksum := some (hash (standby.take 2)),
            pageChecksumResult := none,
            repoFileAfter := some (standby.take 2) } := by
  simp [backupFile, backupStandbyFileArgs, backupFileCopied, liveReadOf,
    List.length_take, hlen]

/-- Witness for C7 at the concrete standby bytes of the test. -/
theorem C7_standby_grew_on_primary_witness :
    backupFile id id some (backupStandbyFileArgs 2 (some [53, 54, 55, 56])) =
      .ok { copyResult := .copy, copySize := 2, repoSize := 2,
            copyChecksum := some [53, 54], pageChecksumResult := none,
            repoFileAfter := some [53, 54] } :=
  C7_standby_grew_on_primary id [53, 54, 55, 56] rfl

/-! ### Manifest serialization (spec.md section 4.E)

The manifest serializer/loader (info/manifest.c, info/info.c) is not in the
source slice; only the performance test typeTest.c exercises it.  The
INI-shaped text format is modelled at the line level: a file is a list of
lines, each line a list of characters.  A body section is a `[name]` header
line followed by `key=value` lines; the file terminates with a `[backrest]`
section whose `backrest-checksum` key holds a checksum of the body lines
above it. -/

/-- A line of the sectioned text format. -/
abbrev Chars := List Char

/-- Name of the trailing checksum section. -/
def backrestChars : Chars := "backrest".toList

/-- Key carrying the checksum inside the trailing section. -/
def checksumKeyChars : Chars := "backrest-checksum".toList

/-- One `key=JSON-value` entry of a manifest section. -/
structure ManifestKV where
  key : Chars
  value : Chars
deriving DecidableEq, Repr

/-- One `[section]` of a manifest with its entries in file order. -/
structure ManifestSection where
  name : Chars
  content : List ManifestKV
deriving DecidableEq, Repr

/-- The serialized view of a manifest: its sections in file order. -/
abbrev Manifest := List ManifestSection

def sectionLine (name : Chars) : Chars := '[' :: (name ++ [']'])

def kvLine (k v : Chars) : Chars := k ++ ('=' :: v)

def saveSection (s : ManifestSection) : List Chars :=
  sectionLine s.name :: s.content.map fun kv => kvLine kv.key kv.value

def saveBody (m : Manifest) : List Chars :=
  (m.map saveSection).flatten

/-- Modelled from the spec: `manifestSave` (spec.md section 4.E): the body
sections are written in order, then a trailing `[backrest]` section holds the
checksum computed over the body lines above it (`hash` stands for the SHA-1
of the staged body). -/
def manifestSave (hash : List Chars → Chars) (m : Manifest) : List Chars :=
  saveBody m ++ [sectionLine backrestChars, kvLine checksumKeyChars (hash (saveBody m))]

/-- Whether a character occurs in a line. -/
def hasChar (c : Char) : Chars → Bool
  | [] => false
  | a :: rest => a == c || hasChar c rest

/-- A line is a section header iff it starts with an opening bracket. -/
def isSectionLine (l : Chars) : Bool :=
  match l with
  | [] => false
  | c :: _ => c == '['

/-- The name in a section header line (everything between the brackets). -/
def sectionNameOf (l : Chars) : Chars := l.tail.dropLast

/-- Split a body line at its first equals sign into key and value. -/
def splitEq : Chars → Option (Chars × Chars)
  | [] => none
  | c :: rest =>
    if c = '=' then some ([], rest)
    else
      match splitEq rest with
      | none => none
      | some (k, v) => some (c :: k, v)

/-- Parse `key=value` lines up to the next section header (or the end),
returning the entries and the remaining lines. -/
def parseKVs : List Chars → Option (List ManifestKV × List Chars)
  | [] => some ([], [])
  | l :: rest =>
    if isSectionLine l then some ([], l :: rest)
    else
      match splitEq l with
      | none => none
      | some (k, v) =>
        match parseKVs rest with
        | none => none
        | some (kvs, rem) => some (⟨k, v⟩ :: kvs, rem)

/-- Parse the body sections up to the trailing `[backrest]` checksum section,
returning the manifest and the stored checksum; the fuel bounds the number of
sections (the caller passes the line count). -/
def parseSections : Nat → List Chars → Option (Manifest × Chars)
  | _, [] => none
  | 0, _ :: _ => none
  | fuel + 1, l :: rest =>
    if isSectionLine l then
      if sectionNameOf l = backrestChars then
        match rest with
        | [cl] =>
          match splitEq cl with
          | none => none
          | some (k, c) => if k = checksumKeyChars then some ([], c) else none
        | _ => none
      else
        match parseKVs rest with
        | none => none
        | some (kvs, rem) =>
          match parseSections fuel rem with
          | none => none
          | some (secs, c) => some (⟨sectionNameOf l, kvs⟩ :: secs, c)
    else none

/-- Modelled from the spec: `manifestNewLoad` (spec.md section 4.E): parse the
sections, recompute the checksum over the body lines as read (all lines above
the trailing section) and compare it with the stored one; a parse failure is
a `FormatError`, a mismatch a `ChecksumError`. -/
def manifestNewLoad (hash : List Chars → Chars) (lines : List Chars) :
    Except BackupError Manifest :=
  match parseSections lines.length lines with
  | none => .error .formatError
  | some (m, c) =>
    if hash (lines.take (lines.length - 2)) = c then .ok m
    else .error .checksumError

/-- A key can be serialized unambiguously: no equals sign and not shaped like
a section header. -/
def keyOk (k : Chars) : Bool :=
  !hasChar '=' k && !isSectionLine k

/-- Lexicographic collation order on lines (strict). -/
def lexLt : Chars → Chars → Bool
  | [], [] => false
  | [], _ :: _ => true
  | _ :: _, [] => false
  | a :: as, b :: bs => if a < b then true else if b < a then false else lexLt as bs

/-- Strictly ascending in collation order. -/
def chainLt : List Chars → Bool
  | [] => true
  | [_] => true
  | a :: b :: rest => lexLt a b && chainLt (b :: rest)

/-- A serializable section: the name is not the reserved trailing section and
every key is unambiguous. -/
def sectionWF (s : ManifestSection) : Bool :=
  !(s.name == backrestChars) && s.content.all fun kv => keyOk kv.key

/-- A valid (canonical) manifest: serializable sections, section names in
collation-sorted order and keys sorted within each section (spec.md section
4.E: keys and sections are written in collation-sorted order). -/
def manifestWF (m : Manifest) : Bool :=
  m.all sectionWF && chainLt (m.map (·.name)) &&
    m.all fun s => chainLt (s.content.map (·.key))

theorem splitEq_kvLine (k v : Chars) (hk : hasChar '=' k = false) :
    splitEq (kvLine k v) = some (k, v) := by
  induction k with
  | nil => simp [kvLine, splitEq]
  | cons c k ih =>
    simp only [hasChar, Bool.or_eq_false_iff] at hk
    have hne : ¬ c = '=' := by simpa using hk.1
    have hs : splitEq (k ++ ('=' :: v)) = some (k, v) := by
      simpa [kvLine] using ih hk.2
    simp [kvLine, splitEq, if_neg hne, hs]

theorem isSectionLine_kvLine (k v : Chars) (hk : isSectionLine k = false) :
    isSectionLine (kvLine k v) = false := by
  cases k with
  | nil => rfl
  | cons c k => simpa [kvLine, isSectionLine] using hk

theorem isSectionLine_sectionLine (n : Chars) : isSectionLine (sectionLine n) = true := rfl

theorem sectionNameOf_sectionLine (n : Chars) : sectionNameOf (sectionLine n) = n := by
  simp [sectionLine, sectionNameOf, List.dropLast_concat]

theorem parseKVs_saved (kvs : List ManifestKV) (rem : List Chars)
    (hkeys : (kvs.all fun kv => keyOk kv.key) = true)
    (hrem : ∃ l t, rem = l :: t ∧ isSectionLine l = true) :
    parseKVs ((kvs.map fun kv => kvLine kv.key kv.value) ++ rem) = some (kvs, rem) := by
  induction kvs with
  | nil =>
    obtain ⟨l, t, hr, hl⟩ := hrem
    subst hr
    simp [parseKVs, hl]
  | cons kv kvs ih =>
    simp only [List.all_cons, Bool.and_eq_true] at hkeys
    have hok := hkeys.1
    simp only [keyOk, Bool.and_eq_true, Bool.not_eq_true'] at hok
    simp [parseKVs, isSectionLine_kvLine kv.key kv.value hok.2,
      splitEq_kvLine kv.key kv.value hok.1, ih hkeys.2]

theorem saved_starts_with_section (m : Manifest) (tail : List Chars) :
    ∃ l t, saveBody m ++ (sectionLine backrestChars :: tail) = l :: t ∧
      isSectionLine l = true := by
  cases m with
  | nil => exact ⟨sectionLine backrestChars, tail, rfl, isSectionLine_sectionLine _⟩
  | cons s m =>
    refine ⟨sectionLine s.name,
      (s.content.map fun kv => kvLine kv.key kv.value) ++
        (saveBody m ++ (sectionLine backrestChars :: tail)), ?_,
      isSectionLine_sectionLine _⟩
    simp [saveBody, saveSection]

theorem checksumKey_no_eq : hasChar '=' checksumKeyChars = false := by decide

theorem parseSections_saved (c : Chars) (m : Manifest)
    (hwf : m.all sectionWF = true) :
    ∀ fuel, m.length < fuel →
      parseSections fuel
        (saveBody m ++ [sectionLine backrestChars, kvLine checksumKeyChars c]) =
      some (m, c) := by
  induction m with
  | nil =>
    intro fuel hf
    cases fuel with
    | zero => omega
    | succ f =>
      show parseSections (f + 1)
        (sectionLine backrestChars :: [kvLine checksumKeyChars c]) = some ([], c)
      simp [parseSections, isSectionLine_sectionLine, sectionNameOf_sectionLine,
        splitEq_kvLine checksumKeyChars c checksumKey_no_eq]
  | cons s m ih =>
    intro fuel hf
    cases fuel with
    | zero => omega
    | succ f =>
      simp only [List.all_cons, Bool.and_eq_true] at hwf
      have hs := hwf.1
      simp only [sectionWF, Bool.and_eq_true, Bool.not_eq_true', beq_eq_false_iff_ne,
        ne_eq] at hs
      have hbody : saveBody (s :: m) ++
          [sectionLine backrestChars, kvLine checksumKeyChars c] =
          sectionLine s.name ::
            ((s.content.map fun kv => kvLine kv.key kv.value) ++
              (saveBody m ++ [sectionLine backrestChars, kvLine checksumKeyChars c])) := by
        simp [saveBody, saveSection]
      rw [hbody]
      have hkvs := parseKVs_saved s.content
        (saveBody m ++ [sectionLine backrestChars, kvLine checksumKeyChars c])
        hs.2 (saved_starts_with_section m [kvLine checksumKeyChars c])
      simp only [parseSections, isSectionLine_sectionLine, if_true,
        sectionNameOf_sectionLine, hs.1, if_false, hkvs,
        ih hwf.2 f (by simpa using Nat.lt_of_succ_lt_succ hf)]

theorem saveBody_length_ge (m : Manifest) : m.length ≤ (saveBody m).length := by
  induction m with
  | nil => simp [saveBody]
  | cons s m ih =>
    simp only [saveBody, List.map_cons, List.flatten_cons, List.length_cons,
      List.length_append, saveSection] at *
    omega

/-- Claim C2: loading the serialized form of a valid manifest yields the
original manifest: `manifestNewLoad (manifestSave m) = m`, with keys and
sections written in collation-sorted order and the trailing checksum section
verified over the body lines. -/
theorem C2_manifest_roundtrip (hash : List Chars → Chars) (m : Manifest)
    (hwf : manifestWF m = true) :
    manifestNewLoad hash (manifestSave hash m) = .ok m := by
  have hall : m.all sectionWF = true := by
    simp only [manifestWF, Bool.and_eq_true] at hwf
    exact hwf.1.1
  have hlen : (manifestSave hash m).length = (saveBody m).length + 2 := by
    simp [manifestSave]
  have hparse : parseSections (manifestSave hash m).length (manifestSave hash m) =
      some (m, hash (saveBody m)) := by
    rw [hlen]
    exact parseSections_saved (hash (saveBody m)) m hall ((saveBody m).length + 2)
      (by have := saveBody_length_ge m; omega)
  have htake : (manifestSave hash m).take ((manifestSave hash m).length - 2) =
      saveBody m := by
    rw [hlen]
    simp only [Nat.add_sub_cancel, manifestSave]
    exact List.take_left _ _
  simp [manifestNewLoad, hparse, htake]

/-- Witness for C2 at a concrete two-section manifest and a concrete checksum
function. -/
theorem C2_manifest_roundtrip_witness :
    manifestWF
        [⟨"backup".toList, [⟨"backup-label".toList, "\"L1\"".toList⟩]⟩,
         ⟨"target:file".toList, []⟩] = true ∧
    manifestNewLoad (fun body => [Char.ofNat (65 + body.length)])
        (manifestSave (fun body => [Char.ofNat (65 + body.length)])
          [⟨"backup".toList, [⟨"backup-label".toList, "\"L1\"".toList⟩]⟩,
           ⟨"target:file".toList, []⟩]) =
      .ok [⟨"backup".toList, [⟨"backup-label".toList, "\"L1\"".toList⟩]⟩,
           ⟨"target:file".toList, []⟩] :=
  ⟨by decide,
    C2_manifest_roundtrip (fun body => [Char.ofNat (65 + body.length)])
      [⟨"backup".toList, [⟨"backup-label".toList, "\"L1\"".toList⟩]⟩,
       ⟨"target:file".toList, []⟩] (by decide)⟩
